import Mathlib

/-!
Verification of the after-spike-current fitting routine `ASGLM_pairwise`
(file `allensdk/model/glif/ASGLM.py`) against its natural-language
specification.

Modelling conventions (shallow embedding):
* Machine floating-point numbers are modelled by `Option ℚ`: `some q` is an
  ordinary (finite) value, `none` is the IEEE not-a-number (NaN) value.
  Rounding is abstracted away (exact rational arithmetic); NaN propagation,
  NaN comparison semantics and control flow are modelled exactly.
* numpy reductions `np.mean`/`np.max` propagate NaN; `NaN == x` is `False`
  for every `x`.  `np.delete` with a list of indices deletes each listed
  in-bounds position once (duplicates are harmless, out-of-bounds indices
  are ignored by the numpy versions this Python 2 code runs on).
* Python exceptions are modelled with `Except String`; the result of a
  raising call is `.error msg`.
* The two external library calls (`GLM.create_basis_IPSP` and the
  statsmodels `sm.GLM(...).fit()` regression, both outside `src/`) are taken
  as explicit function parameters of the model: the claims under study only
  depend on how their results are used, not on their internals.
-/

/-- Floating-point value: `some q` is a finite value, `none` is NaN. -/
abbrev F := Option ℚ

/-! ## Spike collection (ASGLM.py lines 45-54)

For each sweep `mm` the source keeps the spike indices `jj` with
`spike_ind[mm][jj] > tst` and `spike_ind[mm][jj] < tend`, where `tst = 0`
and `tend = len(I_stim[mm])`. -/

/-- Spikes kept for one sweep: indices strictly between `tst` and `tend`. -/
def collectSpikes (tst tend : ℕ) (sp : List ℕ) : List ℕ :=
  sp.filter (fun j => decide (tst < j ∧ j < tend))

/-! ## Unit conversions (ASGLM.py lines 27-33)

`f = 1e-3/dt`, `taus_int = [1000./kk for kk in ks_int]`,
`taus_filter = [f*j for j in taus_int]`, `ks_list = [1.0/i for i in taus_filter]`,
and at line 364 the winning pair is divided by `dt` again. -/

/-- Pre-factor `f = 1e-3/dt`. -/
def fFactor (dt : ℚ) : ℚ := (1 / 1000) / dt

/-- `taus_int` entry: `1000./kk`. -/
def tausIntOf (k : ℚ) : ℚ := 1000 / k

/-- `taus_filter` entry: `f * j`. -/
def tausFilterOf (dt k : ℚ) : ℚ := fFactor dt * tausIntOf k

/-- `ks_list` entry: `1.0 / i` over the filter-unit time constants. -/
def ksListElem (dt k : ℚ) : ℚ := 1 / tausFilterOf dt k

/-! ## Pairwise combinations (ASGLM.py line 59)

`itertools.combinations(l, 2)` in enumeration order. -/

/-- All unordered pairs of a list, in `itertools.combinations` order. -/
def combinations2 : List α → List (α × α)
  | [] => []
  | x :: xs => (xs.map (fun y => (x, y))) ++ combinations2 xs

/-! ## Spike masking (ASGLM.py lines 181-199) -/

/-- Deletion windows: for each kept spike `t0`, indices `t0, …, t0+npcut-1`
(the source builds `range(t0-tst, t0-tst+npcut)` with `tst = 0`). -/
def delWindows (npcut : ℕ) (t0s : List ℕ) : List ℕ :=
  t0s.flatMap (fun t => (List.range npcut).map (t + ·))

/-- Helper for `npDelete`: walks the list carrying the current position. -/
def npDeleteGo (idxs : List ℕ) : ℕ → List α → List α
  | _, [] => []
  | i, x :: xs =>
    if idxs.contains i then npDeleteGo idxs (i + 1) xs
    else x :: npDeleteGo idxs (i + 1) xs

/-- `np.delete(xs, idxs, 0)`: remove the listed positions (set semantics,
duplicates deleted once, out-of-bounds positions ignored). -/
def npDelete (xs : List α) (idxs : List ℕ) : List α := npDeleteGo idxs 0 xs

/-- The four aligned spike-deleted arrays of one sweep. -/
structure Masked where
  v : List ℚ
  dv : List ℚ
  i : List ℚ
  b : List (List ℚ)

/-- Forward-difference derivative over the full (unmasked) sweep:
`dv = (voltage[1:tend] - voltage[0:tend-1]) / dt`. -/
def dvFull (dt : ℚ) (tend : ℕ) (volt : List ℚ) : List ℚ :=
  List.zipWith (fun a c => (c - a) / dt) (volt.take (tend - 1))
    ((volt.drop 1).take (tend - 1))

/-- One sweep of the spike-masking block (ASGLM.py lines 181-199), with
`tst = 0` and `tend = len(I_stim[ss])`. -/
def maskSweep (dt : ℚ) (npcut : ℕ) (t0s : List ℕ) (stim volt : List ℚ)
    (basis : List (List ℚ)) : Masked :=
  let tend := stim.length
  let i := stim.take (tend - 1)
  let b := basis.take (tend - 1)
  let v := volt.take (tend - 1)
  let dv := dvFull dt tend volt
  let delpts := delWindows npcut t0s
  { v := npDelete v delpts
    dv := npDelete dv delpts
    i := npDelete i delpts
    b := npDelete b delpts }

/-! ## NaN-aware arithmetic and the candidate selector
(ASGLM.py lines 292-303 and 361-362) -/

/-- Floating point addition: NaN absorbs. -/
def addF : F → F → F
  | some a, some b => some (a + b)
  | _, _ => none

/-- Floating point sum of a list. -/
def sumF : List F → F
  | [] => some 0
  | x :: xs => addF x (sumF xs)

/-- `np.mean` over one axis-1 slice: NaN entries poison the mean, the mean
of an empty slice is NaN. -/
def meanF (xs : List F) : F :=
  if xs.isEmpty then none
  else (sumF xs).map (fun s => s / (xs.length : ℚ))

/-- Pairwise maximum with IEEE/numpy NaN propagation. -/
def maxF : F → F → F
  | some a, some b => some (max a b)
  | _, _ => none

/-- `np.max` of a list (NaN propagating); numpy raises on an empty
reduction, which never happens at the call site (there are 10 pairs). -/
def npMax : List F → F
  | [] => none
  | x :: xs => xs.foldl maxF x

/-- IEEE `==` on floats: NaN compares unequal to everything. -/
def eqF (a b : F) : Bool :=
  match a, b with
  | some x, some y => decide (x = y)
  | _, _ => false

/-- The candidate selector (ASGLM.py lines 361-362):
`ave = np.mean(llh_for_all_ks_pairs, axis=1)` followed by
`np.where(np.max(ave) == ave)[0][0]`.  Result `none` models the
`IndexError` raised when the `np.where` mask is all-False. -/
def selectBest (llh : List (List F)) : Option ℕ :=
  if (llh.map meanF).any (fun a => eqF (npMax (llh.map meanF)) a) then
    some ((llh.map meanF).findIdx (fun a => eqF (npMax (llh.map meanF)) a))
  else none

/-- Maximum of a nonempty rational list (0 for the empty list). -/
def listMaxQ : List ℚ → ℚ
  | [] => 0
  | x :: xs => xs.foldl max x

/-- Stable argmax as worded by the specification: the first index attaining
the maximum value (spec section 4.4). -/
def specStableArgmax (ms : List ℚ) : ℕ :=
  ms.findIdx (fun a => decide (a = listMaxQ ms))

/-! ## Per-sweep regression unit (ASGLM.py lines 254-303) -/

/-- Result of a successful statsmodels fit: the three fitted coefficients
(`res.params`, one per design-matrix column) and the log-likelihood
(`res.llf`). -/
structure GLMRes where
  p0 : ℚ
  p1 : ℚ
  p2 : ℚ
  llf : ℚ

/-- A regression oracle models the external call
`sm.GLM(out, inp, family=Gaussian(identity)).fit()` (statsmodels, outside
`src/`): given the response and the design matrix it either returns a fit
result or `none` when the call raises (non-convergence, singular design
matrix, and so on). -/
abbrev GLMOracle := List ℚ → List (List ℚ) → Option GLMRes

/-- The design matrix (ASGLM.py lines 256-258): row `t` is
`[(1/cinit)*b[t][0], (1/cinit)*b[t][1], -(v[t]-vL)/tauinit]`. -/
def buildInp (cinit tauinit vL : ℚ) (v : List ℚ) (b : List (List ℚ)) :
    List (List ℚ) :=
  List.zipWith
    (fun vt bt =>
      [(1 / cinit) * bt.getD 0 0, (1 / cinit) * bt.getD 1 0,
        -(vt - vL) / tauinit])
    v b

/-- The response vector (ASGLM.py line 260): `dv - i/cinit`. -/
def buildOut (cinit : ℚ) (dv i : List ℚ) : List ℚ :=
  List.zipWith (fun d x => d - x / cinit) dv i

/-- The per-unit record appended to the per-sweep result lists
(ASGLM.py lines 299-303).  `El` and `C` are the always-`None`
placeholders of the implemented fit phrase. -/
structure SweepRecord where
  R : F
  amp : List F
  llh : F
  El : Option Unit
  C : Option Unit

/-- One (sweep, candidate pair) fitting unit (ASGLM.py lines 279-303):
build the design matrix and response, run the regression; on success record
the first two coefficients as amplitudes, `tauinit/(params[2]*cinit)` as the
resistance and `res.llf` as the log-likelihood; on any exception record the
NaN sentinels and carry on. -/
def fitUnit (glmFit : GLMOracle) (cinit tauinit vL : ℚ) (m : Masked) :
    SweepRecord :=
  match glmFit (buildOut cinit m.dv m.i)
      (buildInp cinit tauinit vL m.v m.b) with
  | some r =>
      { R := some (tauinit / (r.p2 * cinit))
        amp := [some r.p0, some r.p1]
        llh := some r.llf
        El := none
        C := none }
  | none =>
      { R := none
        amp := [none, none]
        llh := none
        El := none
        C := none }

/-! ## Orchestration (the whole of `ASGLM_pairwise`) -/

/-- A basis-constructor oracle models the external call
`GLM.create_basis_IPSP(neye, ncos, taus_filter, ks_fit_units, DTsim,
t0_list[rr], I_stim[rr], nkt, flag_exp, npcut)` (module `allensdk.model.GLM`,
outside `src/`): the model keeps only its data dependence on the candidate
pair, the collected spike list and the stimulus of the sweep (the remaining
arguments are fixed constants of the call site). -/
abbrev BasisOracle := ℚ × ℚ → List ℕ → List ℚ → List (List ℚ)

/-- Error message of the fit-phrase check (ASGLM.py line 14). -/
def phraseErr : String :=
  "The fit phrase is does not fit available fitting options"

/-- Error message of the pair-count check (ASGLM.py line 62). -/
def pairCountErr : String :=
  "figure subplots will need to be changed as there is a different number than 10 ks_pairs."

/-- Message of the `IndexError` raised by `t0_list[0][0]` (ASGLM.py line 92)
when the first sweep has no collected spike. -/
def siIndexErr : String := "IndexError: list index out of range"

/-- Message of the `IndexError` raised by `np.where(...)[0][0]`
(ASGLM.py line 362) when the equality mask is empty. -/
def argmaxIndexErr : String :=
  "IndexError: index 0 is out of bounds for axis 0 with size 0"

/-- Message of the `IndexError` raised by `spike_ind[mm]` (ASGLM.py line 50)
when `spike_ind` has fewer entries than `I_stim`. -/
def spikeListIndexErr : String :=
  "IndexError: list index out of range in spike_ind"

/-- The four recognised fit phrases (ASGLM.py line 13). -/
def validFitPhrases : List String := ["asc", "ascR", "ascREl", "ascRElC"]

/-- Run a fallible step over a list, stopping at the first error
(the semantics of a Python `for` loop whose body may raise). -/
def exceptMap (f : α → Except String β) : List α → Except String (List β)
  | [] => .ok []
  | a :: l =>
    match f a with
    | .error e => .error e
    | .ok b =>
      match exceptMap f l with
      | .error e => .error e
      | .ok bs => .ok (b :: bs)

/-- The masked data of every sweep for one candidate pair: sweep `ss` is
masked against its own basis matrix `create_basis_IPSP(..., t0_list[ss],
I_stim[ss], ...)` (ASGLM.py lines 85-90 and 181-199). -/
def maskedListOf (createBasis : BasisOracle) (dt : ℚ) (npcut : ℕ)
    (I_stim volt : List (List ℚ)) (t0_list : List (List ℕ))
    (ksp : ℚ × ℚ) : List Masked :=
  (List.range I_stim.length).map
    (fun ss => maskSweep dt npcut (t0_list.getD ss []) (I_stim.getD ss [])
      (volt.getD ss [])
      (createBasis ksp (t0_list.getD ss []) (I_stim.getD ss [])))

/-- The per-candidate-pair body of the main loop (ASGLM.py lines 78-303):
construct the basis of every sweep, read `t0_list[0][0]` for the plot
window (unconditionally, also with plotting disabled — an `IndexError`
when the first sweep has no collected spike and at least one sweep
exists), then mask and fit every sweep. -/
def processPair (createBasis : BasisOracle) (glmFit : GLMOracle)
    (dt : ℚ) (npcut : ℕ) (cinit tauinit vL : ℚ)
    (I_stim volt : List (List ℚ)) (t0_list : List (List ℕ))
    (ksp : ℚ × ℚ) : Except String (List SweepRecord) :=
  if I_stim.length ≠ 0 ∧ (t0_list.headD []).isEmpty then .error siIndexErr
  else
    .ok ((maskedListOf createBasis dt npcut I_stim volt t0_list ksp).map
      (fitUnit glmFit cinit tauinit vL))

/-- The six-component result bundle (ASGLM.py lines 364-369 and 382). -/
structure Output where
  best_k_pair : List ℚ
  best_asc_amp : List (List F)
  best_R : List F
  best_C : List (Option Unit)
  best_El : List (Option Unit)
  best_llh : List F

/-- `t0_list` (ASGLM.py lines 45-54): the collected spikes of every sweep,
with `tst = 0` and `tend = len(I_stim[mm])`. -/
def t0ListOf (I_stim : List (List ℚ)) (spike_ind : List (List ℕ)) :
    List (List ℕ) :=
  (List.range I_stim.length).map
    (fun mm => collectSpikes 0 (I_stim.getD mm []).length
      (spike_ind.getD mm []))

/-- `ks_pairs` (ASGLM.py lines 31-33 and 59): pairwise combinations of the
filter-unit rates. -/
def ksPairsOf (dt : ℚ) (ks_int : List ℚ) : List (ℚ × ℚ) :=
  combinations2 (ks_int.map (ksListElem dt))

/-- The `SHORT_RUN` truncation (ASGLM.py lines 69-71). -/
def shortPairs (SHORT_RUN : Bool) (l : List (ℚ × ℚ)) : List (ℚ × ℚ) :=
  if SHORT_RUN then l.take 1 else l

/-- The selection stage (ASGLM.py lines 361-369): mean log-likelihood per
pair, stable argmax, and assembly of the best-pair result bundle (with the
winning rates divided by `dt` at line 364). -/
def selectStage (dt : ℚ) (ks_pairs : List (ℚ × ℚ))
    (recordsPerPair : List (List SweepRecord)) : Except String Output :=
  match selectBest (recordsPerPair.map (fun recs => recs.map (·.llh))) with
  | none => .error argmaxIndexErr
  | some ind =>
    .ok
      { best_k_pair := [(ks_pairs.getD ind (0, 0)).1 / dt,
          (ks_pairs.getD ind (0, 0)).2 / dt]
        best_asc_amp := (recordsPerPair.getD ind []).map (·.amp)
        best_R := (recordsPerPair.getD ind []).map (·.R)
        best_C := (recordsPerPair.getD ind []).map (·.C)
        best_El := (recordsPerPair.getD ind []).map (·.El)
        best_llh := (recordsPerPair.getD ind []).map (·.llh) }

/-- Shallow embedding of `ASGLM_pairwise` (ASGLM.py lines 7-382), with the
two external library calls supplied as oracles.  Control flow, failure
points and the data path of every claim under study follow the source. -/
def ASGLM_pairwise (createBasis : BasisOracle) (glmFit : GLMOracle)
    (ks_int : List ℚ) (I_stim volt : List (List ℚ))
    (spike_ind : List (List ℕ)) (cinit tauinit : ℚ) (SCL : ℕ) (dt : ℚ)
    (resting_potential : ℚ) (fit_phrase : String)
    (SHORT_RUN MAKE_PLOT SHOW_PLOT BLOCK : Bool) :
    Except String Output :=
  if fit_phrase ∈ validFitPhrases then
    if spike_ind.length < I_stim.length then .error spikeListIndexErr
    else
      if (ksPairsOf dt ks_int).length = 10 then
        match exceptMap
            (processPair createBasis glmFit dt SCL cinit tauinit
              resting_potential I_stim volt (t0ListOf I_stim spike_ind))
            (shortPairs SHORT_RUN (ksPairsOf dt ks_int)) with
        | .error e => .error e
        | .ok recordsPerPair =>
          selectStage dt (shortPairs SHORT_RUN (ksPairsOf dt ks_int))
            recordsPerPair
      else .error pairCountErr
  else .error phraseErr

/-! ## Supporting lemmas -/

/-- Round trip of the rate conversions: to filter units and back. -/
theorem ksRoundTrip (k dt : ℚ) (hk : k ≠ 0) (hdt : dt ≠ 0) :
    ksListElem dt k / dt = k := by
  simp only [ksListElem, tausFilterOf, tausIntOf, fFactor]
  field_simp

/-- The collected spike list never contains the index 0. -/
theorem collectSpikes_zero_mem (tend : ℕ) (sp : List ℕ) :
    (0 ∈ collectSpikes 0 tend sp) = False := by
  simp [collectSpikes]

/-- A spike at index 0 does not change the collected spike list. -/
theorem collectSpikes_cons_zero (tend : ℕ) (sp : List ℕ) :
    collectSpikes 0 tend (0 :: sp) = collectSpikes 0 tend sp := by
  simp [collectSpikes]

/-- `combinations2` has `C(n, 2)` elements. -/
theorem combinations2_length (l : List α) :
    (combinations2 l).length = Nat.choose l.length 2 := by
  induction l with
  | nil => rfl
  | cons x xs ih =>
    simp [combinations2, ih, Nat.choose_succ_succ, Nat.choose_one_right]

/-- `C(n, 2) = 10` exactly when `n = 5`. -/
theorem choose_two_eq_ten_iff (n : ℕ) : Nat.choose n 2 = 10 ↔ n = 5 := by
  constructor
  · intro h
    rcases lt_or_ge n 7 with h7 | h7
    · interval_cases n <;> revert h <;> decide
    · have h21 := Nat.choose_le_choose 2 h7
      rw [h] at h21
      have : (21 : ℕ) ≤ 10 := by
        simpa [show Nat.choose 7 2 = 21 from by decide] using h21
      omega
  · rintro rfl; decide

/-- A NaN summand makes the whole sum NaN. -/
theorem sumF_of_none_mem : ∀ (xs : List F), none ∈ xs → sumF xs = none := by
  intro xs h
  induction xs with
  | nil => cases h
  | cons x t ih =>
    rcases List.mem_cons.mp h with hx | ht
    · cases hx; cases sumF t <;> rfl
    · show addF x (sumF t) = none
      rw [ih ht]; cases x <;> rfl

/-- A NaN entry poisons the mean. -/
theorem meanF_of_none_mem : ∀ (xs : List F), none ∈ xs → meanF xs = none := by
  intro xs h
  cases xs with
  | nil => cases h
  | cons x t => simp [meanF, sumF_of_none_mem _ h]

/-- Sum of ordinary values is the ordinary sum. -/
theorem sumF_map_some (ms : List ℚ) : sumF (ms.map some) = some ms.sum := by
  induction ms with
  | nil => rfl
  | cons m t ih => simp [sumF, ih, addF]

/-- Mean of ordinary values is the arithmetic mean. -/
theorem meanF_map_some (ms : List ℚ) (h : ms ≠ []) :
    meanF (ms.map some) = some (ms.sum / (ms.length : ℚ)) := by
  cases ms with
  | nil => exact absurd rfl h
  | cons m t =>
    simp [meanF, sumF_map_some]
    exact ⟨m + t.sum, by simpa [List.map_cons] using sumF_map_some (m :: t), rfl⟩

/-- A NaN accumulator is absorbing for the numpy maximum fold. -/
theorem foldl_maxF_none_acc : ∀ (l : List F), l.foldl maxF none = none := by
  intro l
  induction l with
  | nil => rfl
  | cons y t ih =>
    show List.foldl maxF (maxF none y) t = none
    cases y <;> exact ih

/-- A NaN element makes the numpy maximum fold NaN. -/
theorem foldl_maxF_of_none_mem :
    ∀ (l : List F) (a : F), none ∈ l → l.foldl maxF a = none := by
  intro l
  induction l with
  | nil => intro a h; cases h
  | cons y t ih =>
    intro a h
    rcases List.mem_cons.mp h with hy | ht
    · cases hy
      show List.foldl maxF (maxF a none) t = none
      cases a <;> exact foldl_maxF_none_acc t
    · exact ih _ ht

/-- `np.max` of a list containing NaN is NaN. -/
theorem npMax_of_none_mem (l : List F) (h : none ∈ l) : npMax l = none := by
  cases l with
  | nil => cases h
  | cons x t =>
    rcases List.mem_cons.mp h with hx | ht
    · cases hx; exact foldl_maxF_none_acc t
    · exact foldl_maxF_of_none_mem t x ht

/-- NaN compares unequal to everything. -/
theorem eqF_none_left (a : F) : eqF none a = false := by
  cases a <;> rfl

/-- If some candidate mean is NaN, the `np.where` mask is empty and the
selector raises (`none`). -/
theorem selectBest_of_none_mem (llh : List (List F))
    (h : none ∈ llh.map meanF) : selectBest llh = none := by
  unfold selectBest
  rw [npMax_of_none_mem _ h, if_neg]
  simp [List.any_eq_true, eqF_none_left]

/-- The numpy maximum fold over ordinary values is the ordinary fold. -/
theorem foldl_maxF_map_some :
    ∀ (ms : List ℚ) (a : ℚ),
      (ms.map some).foldl maxF (some a) = some (ms.foldl max a) := by
  intro ms
  induction ms with
  | nil => intro a; rfl
  | cons m t ih => intro a; exact ih (max a m)

/-- `np.max` over ordinary values is the ordinary maximum. -/
theorem npMax_map_some (ms : List ℚ) (h : ms ≠ []) :
    npMax (ms.map some) = some (listMaxQ ms) := by
  cases ms with
  | nil => exact absurd rfl h
  | cons m t => exact foldl_maxF_map_some t m

/-- The maximum fold returns the accumulator or a list element. -/
theorem foldl_max_mem :
    ∀ (ms : List ℚ) (a : ℚ), ms.foldl max a = a ∨ ms.foldl max a ∈ ms := by
  intro ms
  induction ms with
  | nil => intro a; exact Or.inl rfl
  | cons m t ih =>
    intro a
    rcases ih (max a m) with h | h
    · rcases max_choice a m with hm | hm
      · exact Or.inl (by rw [show ((m :: t).foldl max a) = t.foldl max (max a m) from rfl, h, hm])
      · refine Or.inr (List.mem_cons.mpr (Or.inl ?_))
        rw [show ((m :: t).foldl max a) = t.foldl max (max a m) from rfl, h, hm]
    · exact Or.inr (List.mem_cons.mpr (Or.inr h))

/-- The maximum of a nonempty list is an element of it. -/
theorem listMaxQ_mem (ms : List ℚ) (h : ms ≠ []) : listMaxQ ms ∈ ms := by
  cases ms with
  | nil => exact absurd rfl h
  | cons m t =>
    rcases foldl_max_mem t m with h1 | h1
    · exact List.mem_cons.mpr (Or.inl (by simpa [listMaxQ] using h1))
    · exact List.mem_cons.mpr (Or.inr (by simpa [listMaxQ] using h1))

/-- `findIdx` of the equality test commutes with embedding into floats. -/
theorem findIdx_eqF_map_some (M : ℚ) :
    ∀ (ms : List ℚ),
      (ms.map some).findIdx (fun a => eqF (some M) a) =
        ms.findIdx (fun a => decide (a = M)) := by
  intro ms
  induction ms with
  | nil => rfl
  | cons m t ih =>
    rw [List.map_cons, List.findIdx_cons, List.findIdx_cons, ih,
      show eqF (some M) (some m) = decide (m = M) from by simp [eqF, eq_comm]]

/-- `any` of the equality test commutes with embedding into floats. -/
theorem any_eqF_map_some (M : ℚ) :
    ∀ (ms : List ℚ),
      (ms.map some).any (fun a => eqF (some M) a) =
        ms.any (fun a => decide (a = M)) := by
  intro ms
  induction ms with
  | nil => rfl
  | cons m t ih =>
    rw [List.map_cons, List.any_cons, List.any_cons, ih,
      show eqF (some M) (some m) = decide (m = M) from by simp [eqF, eq_comm]]

/-- With every candidate mean an ordinary value, the selector is the
first-occurrence argmax of the means. -/
theorem selectBest_map_some (llh : List (List F)) (ms : List ℚ)
    (hne : ms ≠ []) (h : llh.map meanF = ms.map some) :
    selectBest llh = some (specStableArgmax ms) := by
  unfold selectBest
  rw [h, npMax_map_some ms hne, any_eqF_map_some, findIdx_eqF_map_some,
    if_pos (List.any_eq_true.mpr ⟨listMaxQ ms, listMaxQ_mem ms hne, by simp⟩)]
  rfl

/-! ## Claim C1 (corrected) -/

/-- C1 (amended): the candidate selector scores each candidate pair by the
arithmetic mean of its per-sweep log-likelihoods, a NaN entry poisoning the
mean.  When every candidate mean is an ordinary value it returns the first
index attaining the maximal mean (stable argmax); but when any candidate
mean is NaN, `np.max` is NaN, the `np.where` equality mask is empty and the
selection raises `IndexError` instead of returning an index. -/
theorem C1_selector_mean_stable_argmax :
    (∀ xs : List F, none ∈ xs → meanF xs = none) ∧
    (∀ ms : List ℚ, ms ≠ [] →
        meanF (ms.map some) = some (ms.sum / (ms.length : ℚ))) ∧
    (∀ (llh : List (List F)) (ms : List ℚ), ms ≠ [] →
        llh.map meanF = ms.map some →
        selectBest llh = some (specStableArgmax ms)) ∧
    (∀ llh : List (List F), none ∈ llh.map meanF → selectBest llh = none) :=
  ⟨meanF_of_none_mem, meanF_map_some,
    fun llh ms hne h => selectBest_map_some llh ms hne h,
    selectBest_of_none_mem⟩

/-- C1 counterexample: with candidate log-likelihood lists `[[NaN], [5]]`
the claim promises the index of the candidate with maximal mean, but the
selection raises `IndexError` (modelled as `none`): `np.max` of `[NaN, 5]`
is NaN and nothing compares equal to it. -/
theorem C1_counterexample :
    selectBest [[none], [some (5 : ℚ)]] = none ∧
    ((∃ i, selectBest [[none], [some (5 : ℚ)]] = some i) = False) :=
  ⟨rfl, eq_false (fun ⟨_, hi⟩ => Option.noConfusion hi)⟩

/-- C1 witness: at a concrete all-ordinary input the selector returns the
stable argmax. -/
theorem C1_witness :
    selectBest [[some 2], [some 1]] = some (specStableArgmax [2, 1]) :=
  C1_selector_mean_stable_argmax.2.2.1 [[some 2], [some 1]] [2, 1]
    (by decide) (by simp [meanF, sumF, addF])

/-! ## Claim C3 (corrected) -/

/-- C3 (amended): when every candidate mean is NaN the selector does not
return an argmax; the `np.where` mask is empty and indexing it raises
`IndexError` (modelled as `none`), so `ASGLM_pairwise` raises instead of
completing. -/
theorem C3_all_nan_selector_raises (llh : List (List F)) (h1 : llh ≠ [])
    (h2 : ∀ x ∈ llh.map meanF, x = none) : selectBest llh = none := by
  apply selectBest_of_none_mem
  cases llh with
  | nil => exact absurd rfl h1
  | cons a t =>
    have : meanF a ∈ (a :: t).map meanF := by simp
    rw [h2 (meanF a) this] at this
    exact this

/-- C3 counterexample: a full concrete call in which every regression
raises (oracle constantly `none`), so every per-sweep log-likelihood and
every candidate mean is NaN; `ASGLM_pairwise` does not complete with a
result bundle but raises the argmax `IndexError`. -/
theorem C3_counterexample :
    ASGLM_pairwise (fun _ _ _ => [[0, 0], [0, 0]]) (fun _ _ => none)
      [1, 2, 3, 4, 5] [[0, 0]] [[0, 0]] [[1]] 1 1 0 1 0 "asc"
      false false false false = Except.error argmaxIndexErr := rfl

/-- C3 witness: the all-NaN selector result at a concrete input. -/
theorem C3_witness : selectBest [[none]] = none :=
  C3_all_nan_selector_raises [[none]] (by decide)
    (by intro x hx; simpa [meanF] using hx)

/-! ## Claim C6 (confirmed) -/

/-- C6: the conversion chain `k → 1000/k → ×(1e-3/dt) → invert` followed by
the final division of the winning rates by `dt` recovers the original
physical rate exactly (exact rational arithmetic models floating point up
to rounding), elementwise and over a whole rate list. -/
theorem C6_rate_round_trip :
    (∀ k dt : ℚ, k ≠ 0 → dt ≠ 0 → ksListElem dt k / dt = k) ∧
    (∀ (dt : ℚ) (ks : List ℚ), dt ≠ 0 → (∀ x ∈ ks, x ≠ 0) →
        (ks.map (ksListElem dt)).map (· / dt) = ks) := by
  constructor
  · exact ksRoundTrip
  · intro dt ks hdt hks
    induction ks with
    | nil => rfl
    | cons a l ih =>
      simp only [List.map_cons]
      rw [ksRoundTrip a dt (hks a (List.mem_cons_self a l)) hdt,
        ih (fun x hx => hks x (List.mem_cons_of_mem a hx))]

/-- C6 witness: the round trip at `k = 2`, `dt = 1`. -/
theorem C6_witness : ksListElem 1 2 / 1 = 2 :=
  C6_rate_round_trip.1 2 1 two_ne_zero one_ne_zero

/-! ## Claim C10 (confirmed) -/

/-- C10: a spike at index 0 is dropped by the collection filter (which
keeps only indices strictly between the start step 0 and the sweep
length), so it contributes no deletion window and no kernel placement:
the collected list, the deletion windows built from it and the output of
any basis constructor applied to it are unchanged by such a spike. -/
theorem C10_zero_spike_inert :
    (∀ (tend : ℕ) (sp : List ℕ),
        collectSpikes 0 tend sp =
          sp.filter (fun j => decide (0 < j ∧ j < tend))) ∧
    (∀ (tend : ℕ) (sp : List ℕ), (0 ∈ collectSpikes 0 tend sp) = False) ∧
    (∀ (tend : ℕ) (sp : List ℕ),
        collectSpikes 0 tend (0 :: sp) = collectSpikes 0 tend sp) ∧
    (∀ (npcut tend : ℕ) (sp : List ℕ),
        delWindows npcut (collectSpikes 0 tend (0 :: sp)) =
          delWindows npcut (collectSpikes 0 tend sp)) ∧
    (∀ (cb : BasisOracle) (ksp : ℚ × ℚ) (stim : List ℚ) (tend : ℕ)
        (sp : List ℕ),
        cb ksp (collectSpikes 0 tend (0 :: sp)) stim =
          cb ksp (collectSpikes 0 tend sp) stim) :=
  ⟨fun _ _ => rfl, collectSpikes_zero_mem, collectSpikes_cons_zero,
    fun npcut tend sp => by rw [collectSpikes_cons_zero],
    fun cb ksp stim tend sp => by rw [collectSpikes_cons_zero]⟩

/-! ## Claim C2 (confirmed) -/

/-- C2: when the regression call raises for one (sweep, candidate pair)
unit, the unit's recorded result is log-likelihood NaN, resistance NaN and
an all-NaN amplitude vector of length 2; and the per-sweep loop is a total
map, producing one record per sweep whatever the oracle does, so the
exception never propagates out. -/
theorem C2_unit_failure_is_nan_sentinel :
    (∀ (glmFit : GLMOracle) (cinit tauinit vL : ℚ) (m : Masked),
        glmFit (buildOut cinit m.dv m.i)
            (buildInp cinit tauinit vL m.v m.b) = none →
        fitUnit glmFit cinit tauinit vL m =
          { R := none, amp := [none, none], llh := none,
            El := none, C := none }) ∧
    (∀ (glmFit : GLMOracle) (cinit tauinit vL : ℚ) (ms : List Masked),
        (ms.map (fitUnit glmFit cinit tauinit vL)).length = ms.length) := by
  constructor
  · intro glmFit cinit tauinit vL m h
    unfold fitUnit
    rw [h]
  · intro glmFit cinit tauinit vL ms
    exact List.length_map ms (fitUnit glmFit cinit tauinit vL)

/-- C2 witness: a concretely failing oracle yields the NaN sentinel record
and the loop length is preserved. -/
theorem C2_witness :
    fitUnit (fun _ _ => none) 1 1 0 ⟨[], [], [], []⟩ =
      { R := none, amp := [none, none], llh := none,
        El := none, C := none } :=
  C2_unit_failure_is_nan_sentinel.1 (fun _ _ => none) 1 1 0
    ⟨[], [], [], []⟩ rfl

/-! ## Claim C5 (confirmed) -/

/-- C5: the design matrix has columns `basis-1/cinit`, `basis-2/cinit` and
`-(voltage - resting_potential)/tauinit`, the response is
`derivative - current/cinit`, and a successful fit records the first two
coefficients as amplitudes, `tauinit/(params[2]*cinit)` as the resistance
and the model log-likelihood.  The solver itself is the external
statsmodels Gaussian-identity GLM (ordinary least squares), modelled as the
oracle parameter. -/
theorem C5_design_response_records :
    (∀ (cinit tauinit vL : ℚ) (v : List ℚ) (b : List (List ℚ)),
        buildInp cinit tauinit vL v b =
          List.zipWith
            (fun vt bt =>
              [bt.getD 0 0 / cinit, bt.getD 1 0 / cinit,
                -(vt - vL) / tauinit]) v b) ∧
    (∀ (cinit : ℚ) (dv i : List ℚ),
        buildOut cinit dv i =
          List.zipWith (fun d x => d - x / cinit) dv i) ∧
    (∀ (glmFit : GLMOracle) (cinit tauinit vL : ℚ) (m : Masked)
        (r : GLMRes),
        glmFit (buildOut cinit m.dv m.i)
            (buildInp cinit tauinit vL m.v m.b) = some r →
        fitUnit glmFit cinit tauinit vL m =
          { R := some (tauinit / (r.p2 * cinit)),
            amp := [some r.p0, some r.p1],
            llh := some r.llf, El := none, C := none }) := by
  refine ⟨?_, fun _ _ _ => rfl, ?_⟩
  · intro cinit tauinit vL v b
    unfold buildInp
    congr 1
    funext vt bt
    rw [one_div_mul_eq_div, one_div_mul_eq_div]
  · intro glmFit cinit tauinit vL m r h
    unfold fitUnit
    rw [h]

/-- C5 witness: a concrete successful oracle result is recorded as
claimed. -/
theorem C5_witness :
    fitUnit (fun _ _ => some ⟨1, 2, 3, 4⟩) 1 1 0 ⟨[], [], [], []⟩ =
      { R := some (1 / (3 * 1)), amp := [some 1, some 2],
        llh := some 4, El := none, C := none } :=
  C5_design_response_records.2.2 (fun _ _ => some ⟨1, 2, 3, 4⟩) 1 1 0
    ⟨[], [], [], []⟩ ⟨1, 2, 3, 4⟩ rfl

/-! ## Masking length lemmas -/

/-- Walking `npDeleteGo` from position `i` removes exactly the listed
in-range positions: kept length plus deleted count is the full length. -/
theorem npDeleteGo_length_add (idxs : List ℕ) :
    ∀ (xs : List α) (i : ℕ),
      (npDeleteGo idxs i xs).length +
        (List.range xs.length).countP (fun j => decide ((i + j) ∈ idxs)) =
      xs.length := by
  intro xs
  induction xs with
  | nil => intro i; rfl
  | cons x t ih =>
    intro i
    have hcomp : ((fun j => decide ((i + j) ∈ idxs)) ∘ Nat.succ) =
        (fun j => decide (((i + 1) + j) ∈ idxs)) := by
      funext j
      have harith : i + Nat.succ j = (i + 1) + j := by omega
      rw [Function.comp_apply, harith]
    have hcount :
        (List.range (t.length + 1)).countP
            (fun j => decide ((i + j) ∈ idxs)) =
          (List.range t.length).countP
              (fun j => decide (((i + 1) + j) ∈ idxs)) +
            (if i ∈ idxs then 1 else 0) := by
      rw [List.range_succ_eq_map, List.countP_cons, List.countP_map, hcomp]
      by_cases hc : i ∈ idxs <;> simp [hc]
    have hih := ih (i + 1)
    by_cases hc : i ∈ idxs
    · have hcb : idxs.contains i = true := by simp [hc]
      simp only [npDeleteGo, hcb, if_true]
      rw [List.length_cons, hcount, if_pos hc]
      omega
    · have hcb : idxs.contains i = false := by simp [hc]
      simp only [npDeleteGo, hcb, Bool.false_eq_true, if_false]
      rw [List.length_cons, List.length_cons, hcount, if_neg hc]
      omega

/-- `np.delete` keeps `length - (number of listed in-range positions)`
elements. -/
theorem npDelete_length (xs : List α) (idxs : List ℕ) :
    (npDelete xs idxs).length =
      xs.length -
        (List.range xs.length).countP (fun j => decide (j ∈ idxs)) := by
  have h := npDeleteGo_length_add idxs xs 0
  have hz : (fun j => decide ((0 + j) ∈ idxs)) =
      (fun j => decide (j ∈ idxs)) := by
    funext j
    rw [Nat.zero_add]
  rw [hz] at h
  unfold npDelete
  omega

/-- Membership in the union of the per-spike deletion windows. -/
theorem mem_delWindows (npcut : ℕ) (t0s : List ℕ) (j : ℕ) :
    j ∈ delWindows npcut t0s ↔ ∃ t ∈ t0s, t ≤ j ∧ j < t + npcut := by
  unfold delWindows
  simp only [List.mem_flatMap, List.mem_map, List.mem_range]
  constructor
  · rintro ⟨t, ht, k, hk, rfl⟩
    exact ⟨t, ht, Nat.le_add_right t k, by omega⟩
  · rintro ⟨t, ht, h1, h2⟩
    exact ⟨t, ht, j - t, by omega, by omega⟩

/-- The deleted-sample count equals the count of positions that fall in
some per-spike window. -/
theorem countP_delWindows_eq (npcut n : ℕ) (t0s : List ℕ) :
    (List.range n).countP (fun j => decide (j ∈ delWindows npcut t0s)) =
      (List.range n).countP
        (fun j => decide (∃ t ∈ t0s, t ≤ j ∧ j < t + npcut)) := by
  apply List.countP_congr
  intro j _
  simp [mem_delWindows]

/-! ## Claim C4 (confirmed) -/

/-- C4: the derivative is taken over the full unmasked sweep first, giving
length `L - 1`; the masked arrays all use the same deletion index list;
and the spike-deleted derivative has length `L - 1 - d` where `d` counts
the positions of `[0, L-1)` lying in some window `[t0, t0+npcut)`
(out-of-range window indices are ignored, overlaps count once). -/
theorem C4_spike_deleted_lengths (dt : ℚ) (npcut : ℕ) (t0s : List ℕ)
    (stim volt : List ℚ) (basis : List (List ℚ))
    (hv : volt.length = stim.length) (hL : 1 ≤ stim.length) :
    (dvFull dt stim.length volt).length = stim.length - 1 ∧
    maskSweep dt npcut t0s stim volt basis =
      { v := npDelete (volt.take (stim.length - 1)) (delWindows npcut t0s)
        dv := npDelete (dvFull dt stim.length volt) (delWindows npcut t0s)
        i := npDelete (stim.take (stim.length - 1)) (delWindows npcut t0s)
        b := npDelete (basis.take (stim.length - 1))
          (delWindows npcut t0s) } ∧
    (maskSweep dt npcut t0s stim volt basis).dv.length =
      (stim.length - 1) -
        (List.range (stim.length - 1)).countP
          (fun j => decide (∃ t ∈ t0s, t ≤ j ∧ j < t + npcut)) := by
  have h1 : (dvFull dt stim.length volt).length = stim.length - 1 := by
    simp only [dvFull, List.length_zipWith, List.length_take,
      List.length_drop, hv]
    omega
  refine ⟨h1, rfl, ?_⟩
  show (npDelete (dvFull dt stim.length volt)
    (delWindows npcut t0s)).length = _
  rw [npDelete_length, h1, countP_delWindows_eq]

/-- C4 witness: a sweep of length 3 with one spike at index 1 and a cut
window reaching past the end of the derivative array. -/
theorem C4_witness :
    (maskSweep 1 5 [1] [0, 0, 0] [0, 0, 0] []).dv.length =
      ([(0 : ℚ), 0, 0].length - 1) -
        (List.range ([(0 : ℚ), 0, 0].length - 1)).countP
          (fun j => decide (∃ t ∈ [1], t ≤ j ∧ j < t + 5)) :=
  (C4_spike_deleted_lengths 1 5 [1] [0, 0, 0] [0, 0, 0] [] rfl
    (by decide)).2.2

/-! ## Model-level control-flow lemmas -/

/-- The first failing step of a Python loop aborts it with that error. -/
theorem exceptMap_cons_error {f : α → Except String β} {a : α}
    {l : List α} {e : String} (h : f a = .error e) :
    exceptMap f (a :: l) = .error e := by
  unfold exceptMap
  rw [h]

/-- An error of the loop comes from some element of the list. -/
theorem exceptMap_error_mem {f : α → Except String β} :
    ∀ {l : List α} {e : String}, exceptMap f l = .error e →
      ∃ a ∈ l, f a = .error e := by
  intro l
  induction l with
  | nil => intro e h; cases h
  | cons a t ih =>
    intro e h
    unfold exceptMap at h
    split at h
    · rename_i e2 heq
      injection h with h2
      subst h2
      exact ⟨a, List.mem_cons_self a t, heq⟩
    · rename_i b heq
      split at h
      · rename_i e2 heq2
        injection h with h2
        subst h2
        obtain ⟨a2, ha2, hfa2⟩ := ih heq2
        exact ⟨a2, List.mem_cons_of_mem a ha2, hfa2⟩
      · cases h

/-- The only error `processPair` can raise is the plot-window
`IndexError`. -/
theorem processPair_error_imp (cb : BasisOracle) (gf : GLMOracle)
    (dt : ℚ) (npcut : ℕ) (c τ vL : ℚ) (I_stim volt : List (List ℚ))
    (t0_list : List (List ℕ)) (ksp : ℚ × ℚ) (e : String)
    (h : processPair cb gf dt npcut c τ vL I_stim volt t0_list ksp =
      .error e) : e = siIndexErr := by
  unfold processPair at h
  split at h
  · injection h with h2
    exact h2.symm
  · cases h

/-- With at least one sweep and an empty first collected spike list,
`processPair` raises the plot-window `IndexError` for every pair. -/
theorem processPair_first_sweep_no_spike (cb : BasisOracle)
    (gf : GLMOracle) (dt : ℚ) (npcut : ℕ) (c τ vL : ℚ)
    (I_stim volt : List (List ℚ)) (t0_list : List (List ℕ))
    (ksp : ℚ × ℚ) (hne : I_stim.length ≠ 0)
    (h0 : t0_list.headD [] = []) :
    processPair cb gf dt npcut c τ vL I_stim volt t0_list ksp =
      .error siIndexErr := by
  unfold processPair
  rw [if_pos ⟨hne, show (t0_list.headD []).isEmpty = true by rw [h0]; rfl⟩]

/-- The first entry of `t0_list` is the collected spikes of the first
sweep. -/
theorem t0ListOf_headD (I_stim : List (List ℚ))
    (spike_ind : List (List ℕ)) (hne : I_stim ≠ []) :
    (t0ListOf I_stim spike_ind).headD [] =
      collectSpikes 0 (I_stim.headD []).length (spike_ind.headD []) := by
  cases I_stim with
  | nil => exact absurd rfl hne
  | cons a t =>
    unfold t0ListOf
    rw [List.length_cons, List.range_succ_eq_map, List.map_cons,
      List.headD_cons]
    cases spike_ind <;> rfl

/-- The candidate pair list has `C(n, 2)` entries for `n` input rates. -/
theorem ksPairsOf_length (dt : ℚ) (ks_int : List ℚ) :
    (ksPairsOf dt ks_int).length = Nat.choose ks_int.length 2 := by
  unfold ksPairsOf
  rw [combinations2_length, List.length_map]

/-! ## Claim C7 (confirmed) -/

/-- C7: `n` candidate rates generate `n·(n-1)/2` unordered pairs; the pair
count equals 10 exactly when `n = 5`; for `n ≠ 5` the call aborts with the
pair-count exception before any fitting, and for `n = 5` it never raises
that exception. -/
theorem C7_pair_count_structure :
    (∀ l : List ℚ,
        (combinations2 l).length = l.length * (l.length - 1) / 2) ∧
    (∀ l : List ℚ, ((combinations2 l).length = 10 ↔ l.length = 5)) ∧
    (∀ (cb : BasisOracle) (gf : GLMOracle) (ks_int : List ℚ)
        (I_stim volt : List (List ℚ)) (spike_ind : List (List ℕ))
        (cinit tauinit : ℚ) (SCL : ℕ) (dt vL : ℚ) (ph : String)
        (SR MP SP B : Bool),
        ph ∈ validFitPhrases →
        I_stim.length ≤ spike_ind.length →
        ks_int.length ≠ 5 →
        ASGLM_pairwise cb gf ks_int I_stim volt spike_ind cinit tauinit
          SCL dt vL ph SR MP SP B = .error pairCountErr) ∧
    (∀ (cb : BasisOracle) (gf : GLMOracle) (ks_int : List ℚ)
        (I_stim volt : List (List ℚ)) (spike_ind : List (List ℕ))
        (cinit tauinit : ℚ) (SCL : ℕ) (dt vL : ℚ) (ph : String)
        (SR MP SP B : Bool),
        ks_int.length = 5 →
        ASGLM_pairwise cb gf ks_int I_stim volt spike_ind cinit tauinit
          SCL dt vL ph SR MP SP B ≠ .error pairCountErr) := by
  refine ⟨?_, ?_, ?_, ?_⟩
  · intro l
    rw [combinations2_length, Nat.choose_two_right]
  · intro l
    rw [combinations2_length, choose_two_eq_ten_iff]
  · intro cb gf ks_int I_stim volt spike_ind c τ scl dt vL ph SR MP SP B
      hph hsp hk5
    unfold ASGLM_pairwise
    rw [if_pos hph, if_neg (Nat.not_lt.mpr hsp), if_neg]
    rw [ksPairsOf_length]
    intro h
    exact hk5 ((choose_two_eq_ten_iff ks_int.length).mp h)
  · intro cb gf ks_int I_stim volt spike_ind c τ scl dt vL ph SR MP SP B
      hk5 h
    unfold ASGLM_pairwise at h
    by_cases hph : ph ∈ validFitPhrases
    · rw [if_pos hph] at h
      by_cases hsp : spike_ind.length < I_stim.length
      · rw [if_pos hsp] at h
        injection h with h2
        exact absurd h2 (by decide)
      · rw [if_neg hsp] at h
        have hlen10 : (ksPairsOf dt ks_int).length = 10 := by
          rw [ksPairsOf_length, hk5]; rfl
        rw [if_pos hlen10] at h
        split at h
        · rename_i e hm
          obtain ⟨a, _, hfa⟩ := exceptMap_error_mem hm
          have he : e = siIndexErr :=
            processPair_error_imp _ _ _ _ _ _ _ _ _ _ _ _ hfa
          injection h with h2
          rw [he] at h2
          exact absurd h2 (by decide)
        · rename_i recs hm
          unfold selectStage at h
          split at h
          · injection h with h2
            exact absurd h2 (by decide)
          · cases h
    · rw [if_neg hph] at h
      injection h with h2
      exact absurd h2 (by decide)

/-- C7 witness: three rates give three pairs, not ten, and the structural
check aborts the call. -/
theorem C7_witness :
    (combinations2 [(1 : ℚ), 2, 3]).length = 3 * (3 - 1) / 2 ∧
    ASGLM_pairwise (fun _ _ _ => []) (fun _ _ => none) [1, 2, 3] [] []
      [] 1 1 0 1 0 "asc" false false false false = .error pairCountErr :=
  ⟨C7_pair_count_structure.1 [1, 2, 3],
    C7_pair_count_structure.2.2.1 (fun _ _ _ => []) (fun _ _ => none)
      [1, 2, 3] [] [] [] 1 1 0 1 0 "asc" false false false false
      (by decide) (by decide) (by decide)⟩

/-! ## Claim C8 (confirmed) -/

/-- C8: the fit phrase is only checked for membership in the recognised
set; for any two recognised phrases and otherwise identical inputs the
whole routine produces identical results. -/
theorem C8_fit_phrase_noninterference (p₁ p₂ : String)
    (h₁ : p₁ ∈ validFitPhrases) (h₂ : p₂ ∈ validFitPhrases)
    (cb : BasisOracle) (gf : GLMOracle) (ks_int : List ℚ)
    (I_stim volt : List (List ℚ)) (spike_ind : List (List ℕ))
    (cinit tauinit : ℚ) (SCL : ℕ) (dt vL : ℚ) (SR MP SP B : Bool) :
    ASGLM_pairwise cb gf ks_int I_stim volt spike_ind cinit tauinit SCL
        dt vL p₁ SR MP SP B =
      ASGLM_pairwise cb gf ks_int I_stim volt spike_ind cinit tauinit SCL
        dt vL p₂ SR MP SP B := by
  unfold ASGLM_pairwise
  rw [if_pos h₁, if_pos h₂]

/-- C8 witness: two different recognised phrases at a concrete input. -/
theorem C8_witness :
    ASGLM_pairwise (fun _ _ _ => []) (fun _ _ => none) [] [] [] [] 1 1 0
        1 0 "asc" false false false false =
      ASGLM_pairwise (fun _ _ _ => []) (fun _ _ => none) [] [] [] [] 1 1 0
        1 0 "ascRElC" false false false false :=
  C8_fit_phrase_noninterference "asc" "ascRElC" (by decide) (by decide)
    (fun _ _ _ => []) (fun _ _ => none) [] [] [] [] 1 1 0 1 0
    false false false false

/-! ## Claim C9 (confirmed) -/

/-- C9: when the first sweep's spike list has no index strictly between 0
and the sweep length, the unconditional plot-window read `t0_list[0][0]`
raises `IndexError` inside the candidate-pair loop — also with plotting
disabled (the plot flags are arbitrary here) — so the call errors instead
of completing. -/
theorem C9_empty_first_spike_list_raises (cb : BasisOracle)
    (gf : GLMOracle) (ks_int : List ℚ) (I_stim volt : List (List ℚ))
    (spike_ind : List (List ℕ)) (cinit tauinit : ℚ) (SCL : ℕ)
    (dt vL : ℚ) (ph : String) (SR MP SP B : Bool)
    (hph : ph ∈ validFitPhrases)
    (hsp : I_stim.length ≤ spike_ind.length)
    (hk : ks_int.length = 5)
    (hne : I_stim ≠ [])
    (h0 : ∀ j ∈ spike_ind.headD [],
      ¬(0 < j ∧ j < (I_stim.headD []).length)) :
    ASGLM_pairwise cb gf ks_int I_stim volt spike_ind cinit tauinit SCL
      dt vL ph SR MP SP B = .error siIndexErr := by
  have hcol : collectSpikes 0 (I_stim.headD []).length
      (spike_ind.headD []) = [] :=
    List.filter_eq_nil_iff.mpr (fun j hj => by simpa using h0 j hj)
  have hhead : (t0ListOf I_stim spike_ind).headD [] = [] := by
    rw [t0ListOf_headD I_stim spike_ind hne, hcol]
  have hlen10 : (ksPairsOf dt ks_int).length = 10 := by
    rw [ksPairsOf_length, hk]; rfl
  have hne' : I_stim.length ≠ 0 := by
    cases I_stim
    · exact absurd rfl hne
    · simp
  obtain ⟨q, rest, hqr⟩ : ∃ q rest, ksPairsOf dt ks_int = q :: rest := by
    cases hls : ksPairsOf dt ks_int with
    | nil => rw [hls] at hlen10; cases hlen10
    | cons q rest => exact ⟨q, rest, rfl⟩
  have hfq : processPair cb gf dt SCL cinit tauinit vL I_stim volt
      (t0ListOf I_stim spike_ind) q = .error siIndexErr :=
    processPair_first_sweep_no_spike cb gf dt SCL cinit tauinit vL I_stim
      volt (t0ListOf I_stim spike_ind) q hne' hhead
  unfold ASGLM_pairwise
  rw [if_pos hph, if_neg (Nat.not_lt.mpr hsp), if_pos hlen10, hqr]
  cases SR with
  | false =>
    rw [show shortPairs false (q :: rest) = q :: rest from rfl,
      exceptMap_cons_error hfq]
  | true =>
    rw [show shortPairs true (q :: rest) = [q] from rfl,
      exceptMap_cons_error hfq]

/-- C9 witness: one sweep of length 2 whose only spike is at index 0 (not
strictly inside the sweep), five candidate rates, plotting disabled. -/
theorem C9_witness :
    ASGLM_pairwise (fun _ _ _ => []) (fun _ _ => none) [1, 2, 3, 4, 5]
      [[0, 0]] [[0, 0]] [[0]] 1 1 0 1 0 "asc" false false false false =
      .error siIndexErr :=
  C9_empty_first_spike_list_raises (fun _ _ _ => []) (fun _ _ => none)
    [1, 2, 3, 4, 5] [[0, 0]] [[0, 0]] [[0]] 1 1 0 1 0 "asc"
    false false false false (by decide) (by decide) (by decide)
    (by decide) (by decide)
